import Mathlib

/-!
Verification of the terminal slideshow presenter (src/slideshow.py).

Strings are modelled as `List Char`.  The Unicode East Asian Width
classification (`unicodedata.east_asian_width c ∈ {F, W}`) is modelled as an
abstract parameter `isWide : Char → Bool`; theorems are proved for every
classification, with the (true) facts that the space and ellipsis characters
are narrow taken as hypotheses where needed.  A concrete table `eaWide`
covering the main Fullwidth/Wide ranges is used for concrete evaluations.
Python integers are modelled as `Int` where the source value can go negative
and as `Nat` where it cannot.
-/

namespace Slideshow

/-- Width in columns of one character: 2 for East Asian Fullwidth/Wide
characters, 1 otherwise (from `get_display_width`'s per-character step). -/
def charWidth (isWide : Char → Bool) (c : Char) : Nat :=
  if isWide c then 2 else 1

/-- Embeds `get_display_width`: sum of per-character column widths. -/
def get_display_width (isWide : Char → Bool) : List Char → Nat
  | [] => 0
  | c :: t => charWidth isWide c + get_display_width isWide t

/-- Concrete model of the Unicode East Asian Width table restricted to the
Fullwidth/Wide categories (main ranges), used for concrete evaluations. -/
def eaWide (c : Char) : Bool :=
  let n := c.toNat
  (0x1100 ≤ n && n ≤ 0x115F) || (0x2E80 ≤ n && n ≤ 0x303E) ||
  (0x3041 ≤ n && n ≤ 0x33FF) || (0x3400 ≤ n && n ≤ 0x4DBF) ||
  (0x4E00 ≤ n && n ≤ 0x9FFF) || (0xA000 ≤ n && n ≤ 0xA4CF) ||
  (0xAC00 ≤ n && n ≤ 0xD7A3) || (0xF900 ≤ n && n ≤ 0xFAFF) ||
  (0xFE30 ≤ n && n ≤ 0xFE4F) || (0xFF00 ≤ n && n ≤ 0xFF60) ||
  (0xFFE0 ≤ n && n ≤ 0xFFE6) || (0x20000 ≤ n && n ≤ 0x3FFFD)

/-- The loop of `truncate_to_width`: consume characters while the
accumulated width stays within `effmax`; the Bool records whether the loop
broke early (the `truncated` flag). -/
def truncGo (isWide : Char → Bool) (effmax : Int) : Int → List Char → List Char × Bool
  | _, [] => ([], false)
  | cur, c :: t =>
    let cw : Int := charWidth isWide c
    if cur + cw > effmax then ([], true)
    else
      let r := truncGo isWide effmax (cur + cw) t
      (c :: r.1, r.2)

/-- Embeds `truncate_to_width`: reserve one column for the indicator when
requested, consume characters, append the ellipsis when truncation occurred
and the indicator was requested. -/
def truncate_to_width (isWide : Char → Bool) (text : List Char) (maxWidth : Int)
    (addIndicator : Bool) : List Char :=
  let effmax := if addIndicator then maxWidth - 1 else maxWidth
  let r := truncGo isWide effmax 0 text
  if r.2 && addIndicator then r.1 ++ ['…'] else r.1

/-- Embeds Python's `text.split('\n')`: always returns at least one piece. -/
def splitNl : List Char → List (List Char)
  | [] => [[]]
  | c :: t =>
    if c = '\n' then [] :: splitNl t
    else
      match splitNl t with
      | [] => [[c]]
      | h :: r => (c :: h) :: r

/-- Embeds Python's `'\n'.join(lines)`. -/
def joinNl : List (List Char) → List Char
  | [] => []
  | x :: rest =>
    match rest with
    | [] => x
    | _ :: _ => x ++ '\n' :: joinNl rest

/-- The whitespace class used by Python's `str.split()` / `str.strip()`
(ASCII part). -/
def isPySpace (c : Char) : Bool :=
  c = ' ' || c = '\t' || c = '\n' || c = '\r' || c = '\x0B' || c = '\x0C'

/-- Embeds Python's `str.strip()`: drop whitespace from both ends. -/
def pytrim (l : List Char) : List Char :=
  ((l.dropWhile isPySpace).reverse.dropWhile isPySpace).reverse

/-- Whether the first argument is an initial segment of the second. -/
def startsWith : List Char → List Char → Bool
  | [], _ => true
  | _ :: _, [] => false
  | p :: ps, c :: cs => p = c && startsWith ps cs

/-- The running maximum of `_prepare_slide_content` (maximum display width
over the content lines, starting from 0). -/
def maxContentWidth (isWide : Char → Bool) (lines : List (List Char)) : Nat :=
  lines.foldl (fun m l => max m (get_display_width isWide l)) 0

/-- The final padding step of `_prepare_slide_content` (lines 182–185 of the
source): right-pad with spaces when the padded line is still short. -/
def fitPad (isWide : Char → Bool) (width : Nat) (padded : List Char) : List Char :=
  if get_display_width isWide padded < width then
    padded ++ List.replicate (width - get_display_width isWide padded) ' '
  else padded

/-- The per-line body of `_prepare_slide_content`'s loop: truncate with
indicator when the line plus left padding would overflow, prepend the left
padding, then right-pad to the exact width. -/
def fitLine (isWide : Char → Bool) (width lp : Nat) (line : List Char) : List Char :=
  fitPad isWide width (List.replicate lp ' ' ++
    (if lp + get_display_width isWide line > width then
       truncate_to_width isWide line ((width : Int) - (lp : Int)) true
     else line))

/-- Embeds `_prepare_slide_content`: split into lines, compute the centering
padding from the maximum content width, and fit every line. -/
def prepare_slide_content (isWide : Char → Bool) (text : List Char) (width : Nat) :
    List (List Char) :=
  let lines := splitNl text
  let m := maxContentWidth isWide lines
  let lp := if m ≥ width then 0 else (width - m) / 2
  lines.map (fitLine isWide width lp)

/-- A fence marker line, from `_extract_ascii_art`: the stripped line begins
with three backticks. -/
def isFence (l : List Char) : Bool :=
  startsWith ("```".toList) (pytrim l)

/-- The loop of `_extract_ascii_art`: fence lines toggle the in-block flag
and are dropped; lines inside a block are collected. -/
def collectArt : List (List Char) → Bool → List (List Char)
  | [], _ => []
  | l :: t, inBlock =>
    if isFence l then collectArt t (!inBlock)
    else if inBlock then l :: collectArt t inBlock
    else collectArt t inBlock

/-- Embeds `_extract_ascii_art`: the collected in-block lines joined with
newlines, or the whole content when nothing was collected. -/
def extract_ascii_art (content : List Char) : List Char :=
  let art := collectArt (splitNl content) false
  if art = [] then content else joinNl art

/-- The speaker-notes marker used by `_load_slides`. -/
def pyMarker : List Char := "## Speaker Notes".toList

/-- First occurrence of a separator as a contiguous subsequence: returns the
part before it and the part after it (embeds one step of Python's
`str.split(sep)`). -/
def findSub (m : List Char) : List Char → Option (List Char × List Char)
  | [] => if m = [] then some ([], []) else none
  | c :: t =>
    if startsWith m (c :: t) then some ([], (c :: t).drop m.length)
    else
      match findSub m t with
      | none => none
      | some p => some (c :: p.1, p.2)

/-- Embeds the parsing step of `_load_slides`:
`parts = content.split('## Speaker Notes')`, body is `parts[0].strip()` and
notes is `parts[1].strip()` when a second part exists (the segment between
the first and second occurrence), else the empty string. -/
def parse_slide (content : List Char) : List Char × List Char :=
  match findSub pyMarker content with
  | none => (pytrim content, [])
  | some p =>
    (pytrim p.1,
     pytrim (match findSub pyMarker p.2 with
             | none => p.2
             | some q => q.1))

/-- Follows the claim's words, not the source, for comparison: split the
content at the first LINE equal to the marker; everything before is the body
(trimmed) and everything after is the notes (trimmed, empty when no line
equals the marker). -/
def spec_parse_slide (content : List Char) : List Char × List Char :=
  let lines := splitNl content
  let pre := lines.takeWhile (fun l => decide (l ≠ pyMarker))
  let rest := lines.dropWhile (fun l => decide (l ≠ pyMarker))
  match rest with
  | [] => (pytrim content, [])
  | _ :: after => (pytrim (joinNl pre), pytrim (joinNl after))

/-- The substring removed from the title line (`.replace('# ', '')`). -/
def hashSp : List Char := "# ".toList

/-- Embeds Python's `line.replace('# ', '')`: scan left to right, skipping
each occurrence of the two-character marker. -/
def removeHashSp : List Char → List Char
  | '#' :: ' ' :: t => removeHashSp t
  | c :: rest => c :: removeHashSp rest
  | [] => []

/-- Embeds the title extraction of `_load_slides`:
`lines[0].replace('# ', '') if lines else 'Untitled'`. -/
def slide_title (body : List Char) : List Char :=
  match splitNl body with
  | [] => "Untitled".toList
  | l :: _ => removeHashSp l

/-- Follows the claim's words, not the source, for comparison: the first
line with a LEADING `'# '` stripped, and a default placeholder for an empty
body. -/
def spec_slide_title (body : List Char) : List Char :=
  if body = [] then "Untitled".toList
  else
    let l := (splitNl body).headD []
    if startsWith hashSp l then l.drop 2 else l

/-- Embeds Python's `' '.join(words)`. -/
def joinSp : List (List Char) → List Char
  | [] => []
  | x :: rest =>
    match rest with
    | [] => x
    | _ :: _ => x ++ ' ' :: joinSp rest

/-- Accumulator loop for Python's whitespace `str.split()`. -/
def pywordsGo : List Char → List Char → List (List Char)
  | [], acc => if acc = [] then [] else [acc.reverse]
  | c :: t, acc =>
    if isPySpace c then
      if acc = [] then pywordsGo t [] else acc.reverse :: pywordsGo t []
    else pywordsGo t (c :: acc)

/-- Embeds Python's `text.split()`: maximal runs of non-whitespace. -/
def pywords (text : List Char) : List (List Char) :=
  pywordsGo text []

/-- The greedy loop of `_wrap_text`: `cur` is the current line's words,
`len` its running character length; lines are emitted joined with spaces. -/
def wrapGo (width : Int) : List (List Char) → List (List Char) → Int → List (List Char)
  | [], cur, _ => if cur = [] then [] else [joinSp cur]
  | w :: ws, cur, len =>
    let sep : Int := if cur = [] then 0 else 1
    if len + (w.length : Int) + sep ≤ width then
      wrapGo width ws (cur ++ [w]) (len + (w.length : Int) + sep)
    else
      (if cur = [] then [] else [joinSp cur]) ++ wrapGo width ws [w] (w.length : Int)

/-- Embeds `_wrap_text`: greedy word wrap; returns `['']` for no words. -/
def wrap_text (text : List Char) (width : Int) : List (List Char) :=
  let r := wrapGo width (pywords text) [] 0
  if r = [] then [[]] else r

/-- The notes text used by `_render_notes_panel`: the stripped notes, or a
placeholder when the notes are empty. -/
def notes_text (notes : List Char) : List Char :=
  if notes = [] then "(No speaker notes)".toList else pytrim notes

/-- The wrapped note lines of `_render_notes_panel`: each nonblank paragraph
word-wrapped to the interior width `width − 4`, blank paragraphs kept as one
empty line. -/
def wrapped_notes (notes : List Char) (width : Int) : List (List Char) :=
  (splitNl (notes_text notes)).foldr
    (fun para acc =>
      (if pytrim para = [] then [[]]
       else wrap_text (pytrim para) (width - 4)) ++ acc) []

/-- One interior row of the notes panel holding a wrapped line:
`'│ ' + line + padding + ' │'`. -/
def notesRow (width : Nat) (line : List Char) : List Char :=
  '│' :: ' ' :: (line ++ List.replicate ((width - 4) - line.length) ' ' ++ [' ', '│'])

/-- One blank interior row of the notes panel. -/
def blankRow (width : Nat) : List Char :=
  '│' :: (List.replicate (width - 2) ' ' ++ ['│'])

/-- The interior rows of the notes panel: `panel_height − 4` rows, row `i`
showing wrapped line `i` when it exists and blank otherwise. -/
def notes_content_rows (notes : List Char) (width : Nat) (panel_height : Nat) :
    List (List Char) :=
  let wrapped := wrapped_notes notes (width : Int)
  (List.range (panel_height - 4)).map (fun i =>
    if i < wrapped.length then notesRow width (wrapped.getD i []) else blankRow width)

/-- Embeds `_render_notes_panel`: top border, title row, separator, the
interior rows, bottom border. -/
def render_notes_panel (notes : List Char) (width : Nat) (panel_height : Nat) :
    List (List Char) :=
  ('┌' :: (List.replicate (width - 2) '─' ++ ['┐']))
  :: ("│ SPEAKER NOTES".toList ++ List.replicate (width - 17) ' ' ++ ['│'])
  :: ('├' :: (List.replicate (width - 2) '─' ++ ['┤']))
  :: (notes_content_rows notes width panel_height
      ++ [('└' :: (List.replicate (width - 2) '─' ++ ['┘']))])

/-- Embeds `scroll_down`: add `k` (default 3 at the call sites). -/
def scroll_down (off : Int) (k : Int) : Int := off + k

/-- Embeds `scroll_up`: subtract `k`, clamped at 0. -/
def scroll_up (off : Int) (k : Int) : Int := max 0 (off - k)

/-- A scroll transition: one `scroll_down` or `scroll_up` call. -/
inductive ScrollAct where
  | down (k : Int)
  | up (k : Int)

/-- Apply a sequence of scroll transitions to a scroll offset. -/
def applyScroll : Int → List ScrollAct → Int
  | off, [] => off
  | off, ScrollAct.down k :: rest => applyScroll (scroll_down off k) rest
  | off, ScrollAct.up k :: rest => applyScroll (scroll_up off k) rest

/-- The notes panel height reserved by `_render_slide`:
`notes_height + 4` when the panel is shown, else 0. -/
def notes_panel_height (show_notes : Bool) (notes_height : Int) : Int :=
  if show_notes then notes_height + 4 else 0

/-- The available content height of `_render_slide`:
`height − 1 − notes_panel_height` (one row reserved for the status bar). -/
def available_height (height : Int) (show_notes : Bool) (notes_height : Int) : Int :=
  height - 1 - notes_panel_height show_notes notes_height

/-- Embeds Python's list slice `l[a:b]`: a negative bound counts from the
end, then both bounds are clamped to `[0, len]` and the elements with index
in `[a, b)` are taken. -/
def pySlice (l : List (List Char)) (a b : Int) : List (List Char) :=
  let n : Int := l.length
  let a2 := if a < 0 then max 0 (n + a) else min a n
  let b2 := if b < 0 then max 0 (n + b) else min b n
  (l.take b2.toNat).drop a2.toNat

/-- Embeds the content-region composition of `_render_slide` (lines
280–327): extract the art, lay the lines out, clamp the scroll offset, slice
the visible window (`content_lines[off2 : off2 + avail]`) or center
vertically, and pad to the available height.  Returns the composed region
and the new scroll offset. -/
def render_slide_region (isWide : Char → Bool) (body : List Char) (width : Nat)
    (height : Int) (show_notes : Bool) (notes_height : Int) (off : Int) :
    List (List Char) × Int :=
  let content := extract_ascii_art body
  let content_lines := prepare_slide_content isWide content width
  let total : Int := content_lines.length
  let avail := available_height height show_notes notes_height
  let off2 := if total > avail then max 0 (min off (total - avail)) else 0
  let visible :=
    if total > avail then pySlice content_lines off2 (off2 + avail)
    else content_lines
  let top : Nat := if total > avail then 0 else (max 0 ((avail - total) / 2)).toNat
  let screen1 := List.replicate top (List.replicate width ' ') ++ visible
  let bottom : Nat := (avail - (screen1.length : Int)).toNat
  (screen1 ++ List.replicate bottom (List.replicate width ' '), off2)

/-- Follows the claim's words, not the source, for comparison: the available
height with values below 1 treated as 1. -/
def spec_available_height (height : Int) (show_notes : Bool) (notes_height : Int) : Int :=
  max 1 (available_height height show_notes notes_height)

/-- Navigator state relevant to slide navigation: current index and scroll
offset. -/
structure NavState where
  current_index : Nat
  scroll_offset : Int

/-- Embeds `next_slide`: advance and reset the scroll when not on the last
slide; otherwise report failure and leave the state unchanged. -/
def next_slide (st : NavState) (nslides : Nat) : NavState × Bool :=
  if st.current_index < nslides - 1 then
    ({ current_index := st.current_index + 1, scroll_offset := 0 }, true)
  else (st, false)

/-- Display width distributes over append. -/
theorem get_display_width_append (isWide : Char → Bool) (a b : List Char) :
    get_display_width isWide (a ++ b) =
      get_display_width isWide a + get_display_width isWide b := by
  induction a with
  | nil => simp [get_display_width]
  | cons c t ih => simp [get_display_width, ih]; omega

/-- Display width of a run of spaces, when the space is narrow. -/
theorem get_display_width_replicate_space (isWide : Char → Bool)
    (hsp : isWide ' ' = false) (n : Nat) :
    get_display_width isWide (List.replicate n ' ') = n := by
  induction n with
  | zero => simp [get_display_width]
  | succ k ih =>
    simp [List.replicate_succ, get_display_width, charWidth, hsp, ih]
    omega

/-- The truncation loop never exceeds its budget: starting from
accumulated width `cur`, the kept characters add at most `max cur effmax`. -/
theorem truncGo_width_le (isWide : Char → Bool) (effmax : Int) :
    ∀ (t : List Char) (cur : Int),
      cur + (get_display_width isWide (truncGo isWide effmax cur t).1 : Int) ≤
        max cur effmax := by
  intro t
  induction t with
  | nil => intro cur; simp [truncGo, get_display_width]
  | cons c r ih =>
    intro cur
    simp only [truncGo]
    by_cases h : cur + (charWidth isWide c : Int) > effmax
    · simp [h, get_display_width]
    · simp only [h, if_false]
      have h2 := ih (cur + (charWidth isWide c : Int))
      simp only [get_display_width]
      push_cast
      push_cast at h2
      omega

/-- If the whole text fits in the budget, the loop keeps it all and the
truncated flag is false. -/
theorem truncGo_fits (isWide : Char → Bool) (effmax : Int) :
    ∀ (t : List Char) (cur : Int),
      cur + (get_display_width isWide t : Int) ≤ effmax →
      truncGo isWide effmax cur t = (t, false) := by
  intro t
  induction t with
  | nil => intro cur _; rfl
  | cons c r ih =>
    intro cur h
    simp only [get_display_width] at h
    have hc : ¬ (cur + (charWidth isWide c : Int) > effmax) := by push_cast at h; omega
    simp only [truncGo, hc, if_false]
    rw [ih (cur + (charWidth isWide c : Int)) (by push_cast at h ⊢; omega)]

/-- If the text overflows the budget (and the accumulator is still within
it), the loop breaks early: the truncated flag is true. -/
theorem truncGo_overflow (isWide : Char → Bool) (effmax : Int) :
    ∀ (t : List Char) (cur : Int),
      cur ≤ effmax → effmax < cur + (get_display_width isWide t : Int) →
      (truncGo isWide effmax cur t).2 = true := by
  intro t
  induction t with
  | nil => intro cur h1 h2; simp [get_display_width] at h2; omega
  | cons c r ih =>
    intro cur h1 h2
    simp only [truncGo]
    by_cases h : cur + (charWidth isWide c : Int) > effmax
    · simp [h]
    · simp only [h, if_false]
      exact ih (cur + (charWidth isWide c : Int))
        (by omega)
        (by simp only [get_display_width] at h2; push_cast at h2 ⊢; omega)

/-- Without the indicator, truncation never exceeds `maxWidth` (for a
nonnegative budget). -/
theorem truncate_false_le (isWide : Char → Bool) (text : List Char) (maxWidth : Int)
    (h : 0 ≤ maxWidth) :
    (get_display_width isWide (truncate_to_width isWide text maxWidth false) : Int)
      ≤ maxWidth := by
  have hb := truncGo_width_le isWide maxWidth text 0
  simp only [truncate_to_width, Bool.and_false, Bool.false_eq_true, if_false]
  simp only [max_def] at hb
  split at hb <;> omega

/-- With the indicator and a budget of at least one column, the result
(with its ellipsis, a narrow character) never exceeds `maxWidth`. -/
theorem truncate_true_le (isWide : Char → Bool) (text : List Char) (maxWidth : Int)
    (h : 1 ≤ maxWidth) (hell : isWide '…' = false) :
    (get_display_width isWide (truncate_to_width isWide text maxWidth true) : Int)
      ≤ maxWidth := by
  have hb := truncGo_width_le isWide (maxWidth - 1) text 0
  simp only [truncate_to_width, Bool.and_true, if_true]
  by_cases hf : (truncGo isWide (maxWidth - 1) 0 text).2
  · simp only [hf, if_true, get_display_width_append]
    simp only [get_display_width, charWidth, hell, Bool.false_eq_true, if_false]
    simp only [max_def] at hb
    split at hb <;> push_cast <;> omega
  · simp only [hf, Bool.false_eq_true, if_false]
    simp only [max_def] at hb
    split at hb <;> omega

/-- If the text fits within `maxWidth − 1`, requesting the indicator
changes nothing: the text is returned whole, no ellipsis appended. -/
theorem truncate_true_fits (isWide : Char → Bool) (text : List Char) (maxWidth : Int)
    (h : (get_display_width isWide text : Int) ≤ maxWidth - 1) :
    truncate_to_width isWide text maxWidth true = text := by
  have h1 := truncGo_fits isWide (maxWidth - 1) text 0 (by omega)
  simp [truncate_to_width, h1]

/-- If the text overflows `maxWidth − 1` (the budget being nonnegative),
the indicator case appends exactly one ellipsis to the kept characters. -/
theorem truncate_true_overflow (isWide : Char → Bool) (text : List Char) (maxWidth : Int)
    (h0 : 1 ≤ maxWidth) (h : maxWidth - 1 < (get_display_width isWide text : Int)) :
    truncate_to_width isWide text maxWidth true =
      (truncGo isWide (maxWidth - 1) 0 text).1 ++ ['…'] := by
  have h1 := truncGo_overflow isWide (maxWidth - 1) text 0 (by omega) (by omega)
  simp [truncate_to_width, h1]

/-- `splitNl` never returns the empty list (Python `split` always yields at
least one piece). -/
theorem splitNl_ne_nil (l : List Char) : splitNl l ≠ [] := by
  cases l with
  | nil => simp [splitNl]
  | cons c t =>
    simp only [splitNl]
    by_cases h : c = '\n'
    · simp [h]
    · simp only [h, if_false]
      cases splitNl t <;> simp

/-- The seed of the running-maximum fold never decreases. -/
theorem init_le_foldl_max (isWide : Char → Bool) :
    ∀ (ls : List (List Char)) (b : Nat),
      b ≤ ls.foldl (fun m l => max m (get_display_width isWide l)) b := by
  intro ls
  induction ls with
  | nil => intro b; simp
  | cons x t ih =>
    intro b
    calc b ≤ max b (get_display_width isWide x) := le_max_left _ _
    _ ≤ _ := ih _

/-- Every member's display width is bounded by the running maximum. -/
theorem mem_le_foldl_max (isWide : Char → Bool) :
    ∀ (ls : List (List Char)) (b : Nat) (l : List Char), l ∈ ls →
      get_display_width isWide l ≤
        ls.foldl (fun m x => max m (get_display_width isWide x)) b := by
  intro ls
  induction ls with
  | nil => intro b l h; cases h
  | cons x t ih =>
    intro b l h
    rcases List.mem_cons.mp h with h1 | h2
    · subst h1
      calc get_display_width isWide l ≤ max b (get_display_width isWide l) :=
            le_max_right _ _
      _ ≤ _ := init_le_foldl_max isWide t _
    · exact ih _ l h2

/-- Right-padding a line that is not too wide yields exactly the target
width. -/
theorem fitPad_width (isWide : Char → Bool) (width : Nat) (padded : List Char)
    (hsp : isWide ' ' = false)
    (h : get_display_width isWide padded ≤ width) :
    get_display_width isWide (fitPad isWide width padded) = width := by
  simp only [fitPad]
  by_cases hlt : get_display_width isWide padded < width
  · simp only [hlt, if_true, get_display_width_append,
      get_display_width_replicate_space isWide hsp]
    omega
  · simp only [hlt, if_false]
    omega

/-- The fitted line has exactly the target display width, provided the left
padding is zero or the line plus padding already fits. -/
theorem fitLine_width (isWide : Char → Bool) (width lp : Nat) (line : List Char)
    (hw : 1 ≤ width) (hsp : isWide ' ' = false) (hell : isWide '…' = false)
    (hlp : lp = 0 ∨ lp + get_display_width isWide line ≤ width) :
    get_display_width isWide (fitLine isWide width lp line) = width := by
  simp only [fitLine]
  apply fitPad_width isWide width _ hsp
  by_cases hc : lp + get_display_width isWide line > width
  · have hlp0 : lp = 0 := by
      rcases hlp with h | h
      · exact h
      · omega
    simp only [hc, if_true, get_display_width_append,
      get_display_width_replicate_space isWide hsp]
    have ht := truncate_true_le isWide line ((width : Int) - (lp : Int))
      (by omega) hell
    omega
  · simp only [hc, if_false, get_display_width_append,
      get_display_width_replicate_space isWide hsp]
    omega

/-- Claim C6 (amended): `truncate_to_width` never exceeds its budget —
without the indicator for every `maxWidth ≥ 0`, and with the indicator for
every `maxWidth ≥ 1` (the ellipsis being narrow); with the indicator the
ellipsis is appended exactly when truncation occurred (a fitting text is
returned whole, an overflowing one as the kept prefix plus one ellipsis).
At `maxWidth = 0` with the indicator the original claim fails. -/
theorem truncate_width_bounds (isWide : Char → Bool) (text : List Char) (maxWidth : Int) :
    (0 ≤ maxWidth →
      (get_display_width isWide (truncate_to_width isWide text maxWidth false) : Int)
        ≤ maxWidth)
    ∧ (1 ≤ maxWidth → isWide '…' = false →
      (get_display_width isWide (truncate_to_width isWide text maxWidth true) : Int)
        ≤ maxWidth)
    ∧ ((get_display_width isWide text : Int) ≤ maxWidth - 1 →
      truncate_to_width isWide text maxWidth true = text)
    ∧ (1 ≤ maxWidth → maxWidth - 1 < (get_display_width isWide text : Int) →
      truncate_to_width isWide text maxWidth true =
        (truncGo isWide (maxWidth - 1) 0 text).1 ++ ['…']) :=
  ⟨fun h => truncate_false_le isWide text maxWidth h,
   fun h hell => truncate_true_le isWide text maxWidth h hell,
   fun h => truncate_true_fits isWide text maxWidth h,
   fun h0 h => truncate_true_overflow isWide text maxWidth h0 h⟩

/-- Witness for C6 at concrete inputs. -/
theorem truncate_width_bounds_witness :
    ((get_display_width eaWide (truncate_to_width eaWide ("testing".toList) 4 false) : Int)
      ≤ 4)
    ∧ ((get_display_width eaWide (truncate_to_width eaWide ("testing".toList) 4 true) : Int)
      ≤ 4)
    ∧ truncate_to_width eaWide ("ab".toList) 4 true = "ab".toList
    ∧ truncate_to_width eaWide ("testing".toList) 4 true =
        (truncGo eaWide ((4 : Int) - 1) 0 ("testing".toList)).1 ++ ['…'] :=
  ⟨(truncate_width_bounds eaWide ("testing".toList) 4).1 (by decide),
   (truncate_width_bounds eaWide ("testing".toList) 4).2.1 (by decide) (by decide),
   (truncate_width_bounds eaWide ("ab".toList) 4).2.2.1 (by decide),
   (truncate_width_bounds eaWide ("testing".toList) 4).2.2.2 (by decide) (by decide)⟩

/-- Counterexample to C6 as stated: at `maxWidth = 0` with the indicator on,
truncating a nonempty string yields the bare ellipsis, whose display width
1 exceeds the budget 0. -/
theorem truncate_zero_indicator_cex :
    truncate_to_width eaWide ("a".toList) 0 true = "…".toList
    ∧ ¬ ((get_display_width eaWide (truncate_to_width eaWide ("a".toList) 0 true) : Int)
          ≤ 0) := by
  decide

/-- Claim C1 (amended): for every width ≥ 1 (and the space and ellipsis
characters being narrow, as Unicode classifies them), every line returned by
`prepare_slide_content` has display width exactly `width`.  At width 0 the
original claim fails. -/
theorem prepare_width_exact (isWide : Char → Bool) (text : List Char) (width : Nat)
    (hw : 1 ≤ width) (hsp : isWide ' ' = false) (hell : isWide '…' = false) :
    ∀ l ∈ prepare_slide_content isWide text width,
      get_display_width isWide l = width := by
  intro l hl
  simp only [prepare_slide_content, List.mem_map] at hl
  obtain ⟨line, hline, rfl⟩ := hl
  apply fitLine_width isWide width _ line hw hsp hell
  rcases le_or_lt width (maxContentWidth isWide (splitNl text)) with hm | hm
  · rw [if_pos (by omega : maxContentWidth isWide (splitNl text) ≥ width)]
    left
    rfl
  · rw [if_neg (by omega : ¬ maxContentWidth isWide (splitNl text) ≥ width)]
    right
    have h1 : get_display_width isWide line ≤ maxContentWidth isWide (splitNl text) :=
      mem_le_foldl_max isWide (splitNl text) 0 line hline
    omega

/-- Witness for C1 at a concrete slide body and width. -/
theorem prepare_width_exact_witness :
    get_display_width eaWide ((prepare_slide_content eaWide ("hi".toList) 7).headD []) = 7 :=
  prepare_width_exact eaWide ("hi".toList) 7 (by decide) (by decide) (by decide)
    ((prepare_slide_content eaWide ("hi".toList) 7).headD []) (by decide)

/-- Counterexample to C1 as stated: at width 0 a nonempty line is rendered
as the bare ellipsis, of display width 1 ≠ 0. -/
theorem prepare_width_zero_cex :
    prepare_slide_content eaWide ("a".toList) 0 = ["…".toList]
    ∧ get_display_width eaWide ("…".toList) ≠ 0 := by
  decide

/-- Non-fence lines outside a block are dropped by the collector. -/
theorem collectArt_skip (ys : List (List Char)) :
    ∀ xs : List (List Char), (∀ l ∈ xs, isFence l = false) →
      collectArt (xs ++ ys) false = collectArt ys false := by
  intro xs
  induction xs with
  | nil => intro _; simp
  | cons x t ih =>
    intro h
    have hx : isFence x = false := h x (List.mem_cons_self x t)
    simp only [List.cons_append, collectArt, hx, Bool.false_eq_true, if_false]
    exact ih (fun l hl => h l (List.mem_cons_of_mem x hl))

/-- Non-fence lines inside a block are all collected. -/
theorem collectArt_in (ys : List (List Char)) :
    ∀ xs : List (List Char), (∀ l ∈ xs, isFence l = false) →
      collectArt (xs ++ ys) true = xs ++ collectArt ys true := by
  intro xs
  induction xs with
  | nil => intro _; simp
  | cons x t ih =>
    intro h
    have hx : isFence x = false := h x (List.mem_cons_self x t)
    simp only [List.cons_append, collectArt, hx, Bool.false_eq_true, if_false, if_true]
    exact congrArg (fun z => x :: z) (ih (fun l hl => h l (List.mem_cons_of_mem x hl)))

/-- A fence line toggles the in-block flag and is itself dropped. -/
theorem collectArt_fence (f : List Char) (ys : List (List Char)) (b : Bool)
    (hf : isFence f = true) :
    collectArt (f :: ys) b = collectArt ys (!b) := by
  simp [collectArt, hf]

/-- A fence-free line list yields no collected art. -/
theorem collectArt_none (xs : List (List Char)) (h : ∀ l ∈ xs, isFence l = false) :
    collectArt xs false = [] := by
  have h2 := collectArt_skip [] xs h
  simpa using h2

/-- Claim C3 (amended): `_extract_ascii_art` collects the lines inside
fence-delimited regions — the fence lines toggle an in-block flag and are
dropped.  A body with no fence lines is used whole; with one fenced block the
block's lines are kept; with two fenced blocks the contents of BOTH blocks
are concatenated (not just the first, contrary to the original claim). -/
theorem extract_art_blocks :
    (∀ body : List Char, (∀ l ∈ splitNl body, isFence l = false) →
      extract_ascii_art body = body)
    ∧ (∀ (body f1 f2 : List Char) (pre blk post : List (List Char)),
        splitNl body = pre ++ f1 :: (blk ++ f2 :: post) →
        isFence f1 = true → isFence f2 = true →
        (∀ l ∈ pre, isFence l = false) → (∀ l ∈ blk, isFence l = false) →
        (∀ l ∈ post, isFence l = false) → blk ≠ [] →
        extract_ascii_art body = joinNl blk)
    ∧ (∀ (body f1 f2 f3 f4 : List Char) (pre b1 mid b2 post : List (List Char)),
        splitNl body = pre ++ f1 :: (b1 ++ f2 :: (mid ++ f3 :: (b2 ++ f4 :: post))) →
        isFence f1 = true → isFence f2 = true → isFence f3 = true → isFence f4 = true →
        (∀ l ∈ pre, isFence l = false) → (∀ l ∈ b1, isFence l = false) →
        (∀ l ∈ mid, isFence l = false) → (∀ l ∈ b2, isFence l = false) →
        (∀ l ∈ post, isFence l = false) → b1 ++ b2 ≠ [] →
        extract_ascii_art body = joinNl (b1 ++ b2)) := by
  refine ⟨?_, ?_, ?_⟩
  · intro body h
    have hart := collectArt_none (splitNl body) h
    simp [extract_ascii_art, hart]
  · intro body f1 f2 pre blk post hs hf1 hf2 hpre hblk hpost hne
    have hart : collectArt (splitNl body) false = blk := by
      rw [hs, collectArt_skip _ pre hpre, collectArt_fence f1 _ false hf1]
      simp only [Bool.not_false]
      rw [collectArt_in _ blk hblk, collectArt_fence f2 _ true hf2]
      simp only [Bool.not_true]
      rw [collectArt_none post hpost]
      simp
    simp only [extract_ascii_art, hart]
    rw [if_neg hne]
  · intro body f1 f2 f3 f4 pre b1 mid b2 post hs hf1 hf2 hf3 hf4 hpre hb1 hmid hb2
      hpost hne
    have hart : collectArt (splitNl body) false = b1 ++ b2 := by
      rw [hs, collectArt_skip _ pre hpre, collectArt_fence f1 _ false hf1]
      simp only [Bool.not_false]
      rw [collectArt_in _ b1 hb1, collectArt_fence f2 _ true hf2]
      simp only [Bool.not_true]
      rw [collectArt_skip _ mid hmid, collectArt_fence f3 _ false hf3]
      simp only [Bool.not_false]
      rw [collectArt_in _ b2 hb2, collectArt_fence f4 _ true hf4]
      simp only [Bool.not_true]
      rw [collectArt_none post hpost]
      simp
    simp only [extract_ascii_art, hart]
    rw [if_neg hne]

/-- Witness for C3: an unfenced body, a single-block body and a two-block
body, at concrete inputs. -/
theorem extract_art_blocks_witness :
    extract_ascii_art ("hello".toList) = "hello".toList
    ∧ extract_ascii_art ("t\n```\nart\n```\np".toList) = joinNl ["art".toList]
    ∧ extract_ascii_art ("```\na\n```\nx\n```\nb\n```".toList) =
        joinNl (["a".toList] ++ ["b".toList]) :=
  ⟨extract_art_blocks.1 ("hello".toList) (by decide),
   extract_art_blocks.2.1 ("t\n```\nart\n```\np".toList)
     ("```".toList) ("```".toList) ["t".toList] ["art".toList] ["p".toList]
     (by decide) (by decide) (by decide) (by decide) (by decide) (by decide) (by decide),
   extract_art_blocks.2.2 ("```\na\n```\nx\n```\nb\n```".toList)
     ("```".toList) ("```".toList) ("```".toList) ("```".toList)
     [] ["a".toList] ["x".toList] ["b".toList] []
     (by decide) (by decide) (by decide) (by decide) (by decide) (by decide)
     (by decide) (by decide) (by decide) (by decide) (by decide)⟩

/-- Counterexample to C3 as stated: with two fenced blocks the code keeps
the contents of both (joined), not only the text between the first opening
and first closing fence markers, which would be just the first block. -/
theorem extract_art_two_blocks_cex :
    extract_ascii_art ("```\na\n```\n```\nb\n```".toList) = "a\nb".toList
    ∧ "a\nb".toList ≠ "a".toList := by
  decide

/-- A list is an initial segment of itself followed by anything. -/
theorem startsWith_append_self (m r : List Char) : startsWith m (m ++ r) = true := by
  induction m with
  | nil => rfl
  | cons c t ih => simp [startsWith, ih]

/-- `findSub` locates the separator at the first position not excluded by
the hypothesis: an occurrence-free prefix `a` is returned with the suffix. -/
theorem findSub_at (m : List Char) (hm : m ≠ []) :
    ∀ a b : List Char,
      (∀ i < a.length, startsWith m ((a ++ m ++ b).drop i) = false) →
      findSub m (a ++ m ++ b) = some (a, b) := by
  intro a
  induction a with
  | nil =>
    intro b _
    cases m with
    | nil => exact absurd rfl hm
    | cons c t =>
      have hsw : startsWith (c :: t) ((c :: t) ++ b) = true := startsWith_append_self _ _
      simp only [List.nil_append] at hsw ⊢
      simp only [List.cons_append, findSub] at hsw ⊢
      simp [hsw, List.drop_left]
  | cons x a' ih =>
    intro b h
    have hrec := ih b (fun i hi => by
      have h2 := h (i + 1) (by simp only [List.length_cons]; omega)
      simpa using h2)
    have h0 := h 0 (by simp)
    rw [List.drop_zero] at h0
    rw [List.cons_append, List.cons_append] at h0 ⊢
    simp only [findSub, h0, Bool.false_eq_true, if_false, hrec]

/-- When no position of `l` starts the separator, `findSub` finds nothing. -/
theorem findSub_none (m : List Char) (hm : m ≠ []) :
    ∀ l : List Char, (∀ i < l.length, startsWith m (l.drop i) = false) →
      findSub m l = none := by
  intro l
  induction l with
  | nil => intro _; simp [findSub, hm]
  | cons c t ih =>
    intro h
    have h0 := h 0 (by simp)
    simp only [List.drop_zero] at h0
    simp only [findSub, h0, Bool.false_eq_true, if_false]
    rw [ih (fun i hi => by
      have h2 := h (i + 1) (by simp only [List.length_cons]; omega)
      simpa using h2)]

/-- Claim C4 (amended): `_load_slides` splits at the first occurrence of the
SUBSTRING `'## Speaker Notes'` (not a marker line): the body is the trimmed
text before it; the notes are the trimmed text between the first and second
occurrence (everything after when it occurs once, empty when absent) — a
second occurrence and anything after it are dropped, contrary to the
original claim. -/
theorem parse_slide_split :
    (∀ content : List Char,
        (∀ i < content.length, startsWith pyMarker (content.drop i) = false) →
        parse_slide content = (pytrim content, []))
    ∧ (∀ a b : List Char,
        (∀ i < a.length, startsWith pyMarker ((a ++ pyMarker ++ b).drop i) = false) →
        (∀ j < b.length, startsWith pyMarker (b.drop j) = false) →
        parse_slide (a ++ pyMarker ++ b) = (pytrim a, pytrim b))
    ∧ (∀ a b c : List Char,
        (∀ i < a.length,
          startsWith pyMarker ((a ++ pyMarker ++ (b ++ pyMarker ++ c)).drop i) = false) →
        (∀ j < b.length, startsWith pyMarker ((b ++ pyMarker ++ c).drop j) = false) →
        parse_slide (a ++ pyMarker ++ (b ++ pyMarker ++ c)) = (pytrim a, pytrim b)) := by
  have hm : pyMarker ≠ [] := by decide
  refine ⟨?_, ?_, ?_⟩
  · intro content h
    simp only [parse_slide, findSub_none pyMarker hm content h]
  · intro a b h1 h2
    simp only [parse_slide, findSub_at pyMarker hm a b h1,
      findSub_none pyMarker hm b h2]
  · intro a b c h1 h2
    simp only [parse_slide, findSub_at pyMarker hm a (b ++ pyMarker ++ c) h1,
      findSub_at pyMarker hm b c h2]

/-- Witness for C4 at concrete file contents. -/
theorem parse_slide_split_witness :
    parse_slide ("Body only".toList) = (pytrim ("Body only".toList), [])
    ∧ parse_slide ("Body".toList ++ pyMarker ++ " my notes".toList) =
        (pytrim ("Body".toList), pytrim (" my notes".toList))
    ∧ parse_slide ("A".toList ++ pyMarker ++ ("B".toList ++ pyMarker ++ "C".toList)) =
        (pytrim ("A".toList), pytrim ("B".toList)) :=
  ⟨parse_slide_split.1 ("Body only".toList) (by decide),
   parse_slide_split.2.1 ("Body".toList) (" my notes".toList) (by decide) (by decide),
   parse_slide_split.2.2 ("A".toList) ("B".toList) ("C".toList) (by decide) (by decide)⟩

/-- Counterexample to C4 as stated: in a file whose single line contains the
marker text twice mid-line, the code (substring split) yields body `"A"` and
notes `"B"`, while the claim (split at a marker LINE, notes = everything
after) yields the whole trimmed line as body and empty notes. -/
theorem parse_slide_substring_cex :
    parse_slide ("A ## Speaker Notes B ## Speaker Notes C".toList)
      ≠ spec_parse_slide ("A ## Speaker Notes B ## Speaker Notes C".toList) := by
  decide

/-- A position where the `'# '` marker does not match leaves the head
character untouched by the replacement scan. -/
theorem removeHashSp_cons_ne (c : Char) (rest : List Char)
    (h : startsWith hashSp (c :: rest) = false) :
    removeHashSp (c :: rest) = c :: removeHashSp rest := by
  rw [removeHashSp.eq_def]
  split
  · rename_i t heq
    exfalso
    rw [heq] at h
    simp [startsWith, hashSp] at h
  · simp_all
  · simp_all

/-- The replacement scan leaves an occurrence-free string unchanged. -/
theorem removeHashSp_of_no_occ :
    ∀ l : List Char, (∀ i < l.length, startsWith hashSp (l.drop i) = false) →
      removeHashSp l = l := by
  intro l
  induction l with
  | nil => intro _; rfl
  | cons c rest ih =>
    intro h
    have h0 := h 0 (by simp)
    rw [List.drop_zero] at h0
    rw [removeHashSp_cons_ne c rest h0]
    rw [ih (fun i hi => by
      have h2 := h (i + 1) (by simp only [List.length_cons]; omega)
      simpa using h2)]

/-- The replacement scan removes an occurrence after an occurrence-free
prefix, then continues after it. -/
theorem removeHashSp_append :
    ∀ a b : List Char,
      (∀ i < a.length, startsWith hashSp ((a ++ hashSp ++ b).drop i) = false) →
      removeHashSp (a ++ hashSp ++ b) = a ++ removeHashSp b := by
  intro a
  induction a with
  | nil =>
    intro b _
    have he : ([] : List Char) ++ hashSp ++ b = '#' :: ' ' :: b := rfl
    rw [he]
    rw [show removeHashSp ('#' :: ' ' :: b) = removeHashSp b from rfl]
    rfl
  | cons x a' ih =>
    intro b h
    have hrec := ih b (fun i hi => by
      have h2 := h (i + 1) (by simp only [List.length_cons]; omega)
      simpa using h2)
    have h0 := h 0 (by simp)
    rw [List.drop_zero] at h0
    rw [List.cons_append, List.cons_append] at h0 ⊢
    rw [removeHashSp_cons_ne x _ h0, hrec]
    simp

/-- Claim C5 (amended): the slide title is the first line of the body with
EVERY occurrence of the substring `'# '` removed (not only a leading one):
an occurrence-free first line is the title verbatim, and each occurrence
after an occurrence-free prefix is removed with the scan continuing after
it.  The `'Untitled'` placeholder branch is unreachable (`split` always
yields a first line); an empty body gives the empty title. -/
theorem slide_title_replace_all :
    (∀ (body l : List Char) (r : List (List Char)), splitNl body = l :: r →
        (∀ i < l.length, startsWith hashSp (l.drop i) = false) →
        slide_title body = l)
    ∧ (∀ a b : List Char,
        (∀ i < a.length, startsWith hashSp ((a ++ hashSp ++ b).drop i) = false) →
        removeHashSp (a ++ hashSp ++ b) = a ++ removeHashSp b)
    ∧ slide_title [] = [] := by
  refine ⟨?_, removeHashSp_append, by decide⟩
  intro body l r hs h
  simp only [slide_title, hs]
  exact removeHashSp_of_no_occ l h

/-- Witness for C5 at concrete bodies. -/
theorem slide_title_replace_all_witness :
    slide_title ("Intro".toList) = "Intro".toList
    ∧ removeHashSp ("A".toList ++ hashSp ++ "B".toList) =
        "A".toList ++ removeHashSp ("B".toList) :=
  ⟨slide_title_replace_all.1 ("Intro".toList) ("Intro".toList) [] (by decide) (by decide),
   slide_title_replace_all.2.1 ("A".toList) ("B".toList) (by decide)⟩

/-- Counterexample to C5 as stated: the title line `'# A # B'` loses BOTH
occurrences of `'# '` (the code replaces all), not just the leading one. -/
theorem slide_title_not_leading_cex :
    slide_title ("# A # B".toList) = "A B".toList
    ∧ spec_slide_title ("# A # B".toList) = "A # B".toList
    ∧ "A B".toList ≠ "A # B".toList := by
  decide

/-- Joining with single spaces distributes over appending nonempty line
lists. -/
theorem joinSp_append (xs ys : List (List Char)) (hx : xs ≠ []) (hy : ys ≠ []) :
    joinSp (xs ++ ys) = joinSp xs ++ ' ' :: joinSp ys := by
  induction xs with
  | nil => exact absurd rfl hx
  | cons x t ih =>
    cases t with
    | nil =>
      cases ys with
      | nil => exact absurd rfl hy
      | cons y ys' => simp [joinSp]
    | cons t1 t2 =>
      have ih2 := ih (by simp)
      rw [List.cons_append] at ih2
      rw [List.cons_append, List.cons_append]
      rw [show joinSp (x :: t1 :: (t2 ++ ys)) =
            x ++ ' ' :: joinSp (t1 :: (t2 ++ ys)) from rfl]
      rw [show joinSp (x :: t1 :: t2) = x ++ ' ' :: joinSp (t1 :: t2) from rfl]
      rw [ih2]
      simp

/-- The wrap loop with a nonempty current line always emits a line. -/
theorem wrapGo_ne_nil (width : Int) :
    ∀ (ws cur : List (List Char)) (len : Int), cur ≠ [] →
      wrapGo width ws cur len ≠ [] := by
  intro ws
  induction ws with
  | nil => intro cur len hc; simp [wrapGo, hc]
  | cons w ws' ih =>
    intro cur len hc
    simp only [wrapGo]
    by_cases hf : len + (w.length : Int) + (if cur = [] then 0 else 1) ≤ width
    · rw [if_pos hf]
      exact ih _ _ (by simp)
    · rw [if_neg hf, if_neg hc]
      simp

/-- The wrap loop emits exactly the words it is given: the space-joined
emitted lines equal the space-joined pending and remaining words. -/
theorem joinSp_wrapGo (width : Int) :
    ∀ (ws cur : List (List Char)) (len : Int), cur ≠ [] →
      joinSp (wrapGo width ws cur len) = joinSp (cur ++ ws) := by
  intro ws
  induction ws with
  | nil =>
    intro cur len hc
    simp [wrapGo, hc, joinSp]
  | cons w ws' ih =>
    intro cur len hc
    simp only [wrapGo]
    by_cases hf : len + (w.length : Int) + (if cur = [] then 0 else 1) ≤ width
    · rw [if_pos hf, ih _ _ (by simp)]
      rw [List.append_assoc]
      simp
    · rw [if_neg hf, if_neg hc]
      rw [joinSp_append [joinSp cur] _ (by simp)
        (wrapGo_ne_nil width ws' [w] _ (by simp))]
      rw [ih [w] _ (by simp)]
      rw [joinSp_append cur (w :: ws') hc (by simp)]
      simp [joinSp]

/-- Starting from an empty current line, the wrap loop emits the words it
is given. -/
theorem wrapGo_nil_emits (width : Int) :
    ∀ (ws : List (List Char)) (len : Int),
      joinSp (wrapGo width ws [] len) = joinSp ws := by
  intro ws len
  cases ws with
  | nil => rfl
  | cons w ws' =>
    simp only [wrapGo, if_true, List.nil_append]
    by_cases hf : len + (w.length : Int) + 0 ≤ width
    · rw [if_pos hf]
      rw [joinSp_wrapGo width ws' [w] _ (by simp)]
      simp
    · rw [if_neg hf]
      rw [joinSp_wrapGo width ws' [w] _ (by simp)]
      simp

/-- The wrap loop on an empty current line returns nothing only when there
were no words. -/
theorem wrapGo_nil_eq_nil (width : Int) (ws : List (List Char)) (len : Int)
    (h : wrapGo width ws [] len = []) : ws = [] := by
  cases ws with
  | nil => rfl
  | cons w ws' =>
    exfalso
    simp only [wrapGo, if_true, List.nil_append] at h
    by_cases hf : len + (w.length : Int) + 0 ≤ width
    · rw [if_pos hf] at h
      exact wrapGo_ne_nil width ws' [w] _ (by simp) h
    · rw [if_neg hf] at h
      exact wrapGo_ne_nil width ws' [w] _ (by simp) h

/-- Claim C9: joining the lines returned by `_wrap_text` with single spaces
equals joining the whitespace-separated words of the input with single
spaces — wrapping collapses all whitespace between words. -/
theorem wrap_join_words (text : List Char) (width : Int) :
    joinSp (wrap_text text width) = joinSp (pywords text) := by
  simp only [wrap_text]
  by_cases h : wrapGo width (pywords text) [] 0 = []
  · rw [if_pos h, wrapGo_nil_eq_nil width (pywords text) 0 h]
    rfl
  · rw [if_neg h]
    exact wrapGo_nil_emits width (pywords text) 0

/-- Mapping a constant over a range is a replicate. -/
theorem map_range_const (b : List Char) :
    ∀ m : Nat, (List.range m).map (fun _ => b) = List.replicate m b := by
  intro m
  induction m with
  | zero => rfl
  | succ m ih =>
    rw [List.range_succ, List.map_append, ih, List.replicate_succ']
    rfl

/-- The guarded row map over `range m` is the first `m` wrapped lines
followed by blank rows. -/
theorem rows_take_replicate (width : Nat) :
    ∀ (m : Nat) (wrapped : List (List Char)),
      (List.range m).map (fun i =>
        if i < wrapped.length then notesRow width (wrapped.getD i []) else blankRow width)
      = (wrapped.take m).map (notesRow width)
        ++ List.replicate (m - wrapped.length) (blankRow width) := by
  intro m
  induction m with
  | zero => intro wrapped; simp
  | succ m ih =>
    intro wrapped
    rw [List.range_succ_eq_map]
    cases wrapped with
    | nil =>
      simp only [List.map_cons, List.map_map, List.length_nil, Nat.not_lt_zero,
        if_false, List.take_nil, List.map_nil, List.nil_append, Nat.sub_zero,
        Function.comp_def]
      rw [map_range_const, List.replicate_succ]
    | cons w ws =>
      simp only [List.map_cons, List.map_map, Function.comp_def, List.length_cons,
        Nat.succ_eq_add_one, Nat.add_lt_add_iff_right, List.getD_cons_succ,
        List.getD_cons_zero, Nat.zero_lt_succ, if_true]
      rw [ih ws]
      rw [List.take_succ_cons, List.map_cons, Nat.succ_sub_succ]
      rfl

/-- Claim C10: the notes panel occupies exactly `panel_height` rows — three
header rows and a bottom border around an interior of `panel_height − 4`
rows holding the first wrapped note lines, blank-padded when the notes are
shorter; wrapped lines beyond the interior are dropped. -/
theorem notes_panel_rows (notes : List Char) (width : Nat) (panel_height : Nat)
    (h : 4 ≤ panel_height) :
    (render_notes_panel notes width panel_height).length = panel_height
    ∧ notes_content_rows notes width panel_height =
        ((wrapped_notes notes (width : Int)).take (panel_height - 4)).map (notesRow width)
        ++ List.replicate
            ((panel_height - 4) - (wrapped_notes notes (width : Int)).length)
            (blankRow width) := by
  constructor
  · simp [render_notes_panel, notes_content_rows]
    omega
  · simp only [notes_content_rows]
    exact rows_take_replicate width (panel_height - 4) (wrapped_notes notes (width : Int))

/-- Witness for C10 at a concrete notes string, width, and panel height. -/
theorem notes_panel_rows_witness :
    (render_notes_panel ("hi there".toList) 12 8).length = 8
    ∧ notes_content_rows ("hi there".toList) 12 8 =
        ((wrapped_notes ("hi there".toList) ((12 : Nat) : Int)).take (8 - 4)).map
            (notesRow 12)
        ++ List.replicate
            ((8 - 4) - (wrapped_notes ("hi there".toList) ((12 : Nat) : Int)).length)
            (blankRow 12) :=
  notes_panel_rows ("hi there".toList) 12 8 (by decide)

/-- Claim C2: after any sequence of scroll transitions followed by a render,
the resulting scroll offset lies within
`[0, max 0 (totalContentLines − availableHeight)]`. -/
theorem scroll_clamped_after_render (isWide : Char → Bool) (body : List Char)
    (width : Nat) (height : Int) (show_notes : Bool) (notes_height : Int)
    (off0 : Int) (acts : List ScrollAct) :
    0 ≤ (render_slide_region isWide body width height show_notes notes_height
          (applyScroll off0 acts)).2
    ∧ (render_slide_region isWide body width height show_notes notes_height
          (applyScroll off0 acts)).2
      ≤ max 0
          (((prepare_slide_content isWide (extract_ascii_art body) width).length : Int)
            - available_height height show_notes notes_height) := by
  simp only [render_slide_region]
  refine ⟨?_, ?_⟩ <;> split <;> omega

/-- The length of a Python slice, as clamped index arithmetic. -/
theorem pySlice_length (l : List (List Char)) (a b : Int) :
    (pySlice l a b).length =
      ((if b < 0 then max 0 ((l.length : Int) + b) else min b (l.length : Int)).toNat
        - (if a < 0 then max 0 ((l.length : Int) + a) else min a (l.length : Int)).toNat) := by
  simp only [pySlice, List.length_drop, List.length_take]
  split <;> split <;> omega

/-- Claim C7 (amended): the frame composer computes
`availableHeight = height − 1 − notesPanelHeight` with NO lower clamp; for
every nonnegative `availableHeight` the composed content region has exactly
`availableHeight` rows — in particular zero rows, not one, when
`availableHeight = 0` — and the composition is a total function (never
fails). -/
theorem render_region_height (isWide : Char → Bool) (body : List Char) (width : Nat)
    (height : Int) (show_notes : Bool) (notes_height : Int) (off : Int)
    (h : 0 ≤ available_height height show_notes notes_height) :
    (render_slide_region isWide body width height show_notes notes_height off).1.length
      = (available_height height show_notes notes_height).toNat := by
  simp only [render_slide_region]
  by_cases hn : ((prepare_slide_content isWide (extract_ascii_art body) width).length : Int)
      > available_height height show_notes notes_height
  · simp only [if_pos hn, List.length_append, List.length_replicate, pySlice_length]
    split <;> split <;> omega
  · simp only [if_neg hn, List.length_append, List.length_replicate]
    omega

/-- Witness for C7 at a concrete geometry. -/
theorem render_region_height_witness :
    (render_slide_region eaWide ("a\nb\nc".toList) 4 10 false 6 25).1.length
      = (available_height 10 false 6).toNat :=
  render_region_height eaWide ("a\nb\nc".toList) 4 10 false 6 25 (by decide)

/-- Counterexample to C7 as stated: at terminal height 1 with the notes
hidden, `availableHeight` is 0 and the rendered region has 0 rows, not the
1 row that the claim's treat-as-1 rule would give. -/
theorem render_no_min_height_cex :
    (render_slide_region eaWide ("a\nb".toList) 3 1 false 6 0).1.length = 0
    ∧ spec_available_height 1 false 6 = 1
    ∧ (render_slide_region eaWide ("a\nb".toList) 3 1 false 6 0).1.length
        ≠ (spec_available_height 1 false 6).toNat := by
  decide

/-- Claim C8 (amended): `next_slide` sets the index to
`min (currentIndex+1) last`, and resets the scroll offset to 0 only when a
move occurred; at the last slide the whole state is unchanged — the scroll
offset is NOT reset there, contrary to the original claim. -/
theorem next_slide_behavior (st : NavState) (nslides : Nat)
    (hidx : st.current_index ≤ nslides - 1) :
    (next_slide st nslides).1.current_index = min (st.current_index + 1) (nslides - 1)
    ∧ (st.current_index < nslides - 1 → (next_slide st nslides).1.scroll_offset = 0)
    ∧ (nslides - 1 ≤ st.current_index → (next_slide st nslides).1 = st) := by
  unfold next_slide
  by_cases h : st.current_index < nslides - 1
  · rw [if_pos h]
    refine ⟨?_, fun _ => rfl, fun hc => absurd h (by omega)⟩
    show st.current_index + 1 = min (st.current_index + 1) (nslides - 1)
    omega
  · rw [if_neg h]
    refine ⟨?_, fun hc => absurd hc h, fun _ => rfl⟩
    show st.current_index = min (st.current_index + 1) (nslides - 1)
    omega

/-- Witness for C8 at a concrete state and deck size. -/
theorem next_slide_behavior_witness :
    (next_slide ⟨0, 7⟩ 3).1.current_index = min (0 + 1) (3 - 1)
    ∧ (0 < 3 - 1 → (next_slide ⟨0, 7⟩ 3).1.scroll_offset = 0)
    ∧ (3 - 1 ≤ 0 → (next_slide ⟨0, 7⟩ 3).1 = ⟨0, 7⟩) :=
  next_slide_behavior ⟨0, 7⟩ 3 (by decide)

/-- Counterexample to C8 as stated: on a one-slide deck (so the current
slide is the last) with scroll offset 5, `next_slide` leaves the offset at
5 instead of resetting it to 0. -/
theorem next_slide_last_no_reset_cex :
    (next_slide ⟨0, 5⟩ 1).1.scroll_offset = 5 ∧ (5 : Int) ≠ 0 := by
  decide

end Slideshow
